import Mathlib

/-!
Verification of the fq decoder runtime and query-language value bridge.

The development shallowly embeds two source files:
  * `format/mpeg/avc_au.go` — the H.264/AVC access-unit splitter plugin,
  * the interp value-bridge file (`decodevalue.go`) — the adapter exposing
    the decoded-value tree to the query language.

The `decode` package itself (decode.D, decode.Value, decode.Range, the
driver) is not part of the fragment; where a definition depends on it, the
definition is modelled from the spec and marked as such in its doc comment.
-/

/-! ## Bit ranges (decode.Range) -/

/-- Modelled from the spec (section 3.1): a bit range is a pair of a start
offset and a length; the Go `decode.Range` stores `Start` and `Len` as
`int64` and derives `Stop`.  Machine `int64` is modelled as `Int` (no
overflow occurs at the scales considered here). -/
structure DRange where
  Start : Int
  Len : Int
deriving Repr, DecidableEq

/-- Modelled from the spec (section 3.1): `stop = start + length`. -/
def DRange.Stop (r : DRange) : Int := r.Start + r.Len

/-! ## Plain query-language values (gojq universe) -/

/-- Plain (non-decode) query-language values: null, booleans, numbers
(arbitrary-precision integers; IEEE-754 doubles are carried as their
uninterpreted 64-bit patterns, which the bridge never inspects), strings,
sequences and mappings. -/
inductive GoV where
  | nullV
  | boolV (b : Bool)
  | intV (n : Int)
  | floatV (pattern : Nat)
  | strV (s : String)
  | arrV (vs : List GoV)
  | objV (fields : List (String × GoV))
deriving Repr

/-- A key passed to `has`/`update` is an arbitrary query value
(`interface\x7b\x7d` in Go); the bridge only distinguishes strings, ints
and everything else. -/
inductive GoKey where
  | strK (s : String)
  | intK (n : Int)
  | otherK
deriving Repr

/-- Go `fmt.Sprintf` with the `%v` verb applied to a key, as used by the
`notUpdateable` and `HasKeyType` error constructions. -/
def GoKey.goString : GoKey → String
  | .strK s => s
  | .intK n => toString n
  | .otherK => "?"

/-! ## The decoded-value tree (decode.Value, decode.Compound, decode.Scalar) -/

/-- Modelled from the spec (section 3.2): the dynamic type of a Scalar's
`Actual` field, mirroring exactly the cases `makeDecodeValue` switches on:
`*bitio.Buffer`, `bool`, `int`, `int64`, `uint64`, `float64`, `string`,
`[]byte`, `[]interface\x7b\x7d`, `map[string]interface\x7b\x7d`, `nil`.
A bit buffer is a list of bits; a float64 is carried as its uninterpreted
bit pattern. -/
inductive Actual where
  | bitBuf (bits : List Bool)
  | boolA (b : Bool)
  | intA (n : Int)
  | int64A (n : Int)
  | uint64A (n : Nat)
  | float64A (pattern : Nat)
  | strA (s : String)
  | bytesA (bs : List Nat)
  | arrA (vs : List GoV)
  | mapA (fields : List (String × GoV))
  | nilA
deriving Repr

/-- Modelled from the spec (section 3.2): a Scalar leaf carries the raw
`Actual` value, an optional symbolic interpretation `Sym` (a Go
`interface\x7b\x7d`, `nilA` when absent), a description and the gap-fill
`Unknown` flag. -/
structure ScalarV where
  actual : Actual
  sym : Actual
  description : String
  unknown : Bool
deriving Repr

/-- Modelled from the spec (sections 3.2 and 4.1.6): a decoded tree node
(`decode.Value`).  A node is a Compound (struct or array, with an optional
contained decode error exposed through the bridge as a query value, an
optional back-reference to the producing format recorded by its name, and
an `isBufRoot` flag marking re-rooted sub-buffer decodes) or a Scalar.
Every node carries its name and bit range.  The Go parent pointer is not
stored in the node; it is recovered from the `Loc` context below. -/
inductive DecVal where
  | compound (name : String) (range : DRange) (isArray : Bool)
      (description : String) (err : Option GoV) (format : Option String)
      (isBufRoot : Bool) (children : List DecVal)
  | scalar (name : String) (range : DRange) (s : ScalarV)
deriving Repr

def DecVal.name : DecVal → String
  | .compound n _ _ _ _ _ _ _ => n
  | .scalar n _ _ => n

def DecVal.range : DecVal → DRange
  | .compound _ r _ _ _ _ _ _ => r
  | .scalar _ r _ => r

def DecVal.children : DecVal → List DecVal
  | .compound _ _ _ _ _ _ _ cs => cs
  | .scalar _ _ _ => []

/-- The format back-reference of a node (`nil` on Scalars). -/
def DecVal.format : DecVal → Option String
  | .compound _ _ _ _ _ f _ _ => f
  | .scalar _ _ _ => none

def DecVal.isBufRoot : DecVal → Bool
  | .compound _ _ _ _ _ _ b _ => b
  | .scalar _ _ _ => false

/-- One segment of a node's path from the root: a struct child is addressed
by name, an array child by index. -/
inductive PathSeg where
  | nameSeg (s : String)
  | idxSeg (i : Nat)
deriving Repr, DecidableEq

/-- A decoded node together with its tree context, the functional rendering
of the Go parent/root pointers of `decode.Value`: `parents` lists the
ancestor subtrees from the immediate parent up to the root, `segs` is the
node's path from the root, and `rootBits` is the root bit buffer
(`RootBitBuf`) the node's range refers to. -/
structure Loc where
  node : DecVal
  parents : List DecVal
  segs : List PathSeg
  rootBits : List Bool
deriving Repr

/-- The context of the `i`-th-step child `c` of the node at `loc`. -/
def Loc.child (loc : Loc) (c : DecVal) (seg : PathSeg) : Loc :=
  ⟨c, loc.node :: loc.parents, loc.segs ++ [seg], loc.rootBits⟩

/-- Modelled from the spec (section 3.2): `Root()` walks parent pointers to
the top of the tree. -/
def Loc.rootLoc (loc : Loc) : Loc :=
  ⟨loc.parents.getLast?.getD loc.node, [], [], loc.rootBits⟩

/-- Modelled from the spec (section 3.2): `Parent` (`nil` at the root). -/
def Loc.parentLoc : Loc → Option Loc
  | ⟨_, [], _, _⟩ => none
  | ⟨_, p :: ps, segs, bits⟩ => some ⟨p, ps, segs.dropLast, bits⟩

/-- Modelled from the spec (section 3.2): the nearest ancestor-or-self
whose decoding was performed on a distinct underlying bit buffer. -/
def Loc.bufferRootAux (bits : List Bool) :
    DecVal → List DecVal → List PathSeg → Loc
  | n, [], segs => ⟨n, [], segs, bits⟩
  | n, p :: ps, segs =>
    if n.isBufRoot then ⟨n, p :: ps, segs, bits⟩
    else Loc.bufferRootAux bits p ps segs.dropLast

def Loc.bufferRootLoc (loc : Loc) : Loc :=
  Loc.bufferRootAux loc.rootBits loc.node loc.parents loc.segs

/-- Modelled from the spec (section 3.2): the nearest ancestor-or-self
whose `format` back-reference is non-null. -/
def Loc.formatRootAux (bits : List Bool) :
    DecVal → List DecVal → List PathSeg → Loc
  | n, [], segs => ⟨n, [], segs, bits⟩
  | n, p :: ps, segs =>
    if n.format.isSome then ⟨n, p :: ps, segs, bits⟩
    else Loc.formatRootAux bits p ps segs.dropLast

def Loc.formatRootLoc (loc : Loc) : Loc :=
  Loc.formatRootAux loc.rootBits loc.node loc.parents loc.segs

/-! ## Bridge error values -/

/-- The recoverable error values produced by the bridge:
`expectedExtkeyError`, `notUpdateableError`, `gojqextra.HasKeyTypeError`,
the conversion failure of `_actual`/`_sym`, and the plain key-on-non-object
errors of the wrapped gojq values. -/
inductive BridgeErr where
  | expectedExtkey (key : String)
  | notUpdateable (typ : String) (key : String)
  | hasKeyType (l : String) (r : String)
  | convError (what : String)
  | expectedObject (typ : String)
deriving Repr

/-- The adapted values `makeDecodeValue` produces: struct and array
Compound adapters, the Scalar adapter `decodeValue` (wrapping the plain
value together with the node and the `bitsFormat` flag), the byte-range
handle produced for `[]byte` scalars, and the error value of a failed
buffer copy. -/
inductive BridgeValue where
  | structV (loc : Loc)
  | arrayV (loc : Loc)
  | scalarV (jq : GoV) (loc : Loc) (bitsFormat : Bool)
  | bufRangeV (bits : List Bool) (unit : Nat)
  | errV (e : BridgeErr)
deriving Repr

/-- The result of a bridge operation — a Go `interface\x7b\x7d` holding a
plain value, a big integer, an adapted node, a byte/bit-range handle, a
path, or a recoverable error value. -/
inductive KeyResult where
  | nullR
  | boolR (b : Bool)
  | bigIntR (n : Int)
  | strR (s : String)
  | goR (g : GoV)
  | valR (v : BridgeValue)
  | bufR (r : DRange) (unit : Nat)
  | pathR (p : List PathSeg)
  | errR (e : BridgeErr)
deriving Repr

/-! ## Bit-buffer utilities -/

/-- The eight bits of a byte, most significant first. -/
def byteBits (b : Nat) : List Bool :=
  (List.range 8).map (fun i => b / 2 ^ (7 - i) % 2 == 1)

/-- The bit stream of a byte sequence. -/
def bytesToBits (bs : List Nat) : List Bool := (bs.map byteBits).flatten

/-- Big-endian value of a bit string. -/
def bitsToNat (bs : List Bool) : Nat :=
  bs.foldl (fun acc b => 2 * acc + (if b then 1 else 0)) 0

/-- Bytes of a bit string, eight bits at a time (the model of reading a
`bitio.Buffer` out into a byte buffer with `io.Copy`). -/
def bitsToBytes : List Bool → List Nat
  | [] => []
  | b0 :: b1 :: b2 :: b3 :: b4 :: b5 :: b6 :: b7 :: rest =>
    bitsToNat [b0, b1, b2, b3, b4, b5, b6, b7] :: bitsToBytes rest
  | bs => [bitsToNat bs]

/-- The Go string held by a bit buffer (its bytes read as characters), the
payload of `gojqextra.String(buf.String())` in `makeDecodeValue`. -/
def bitBufString (bits : List Bool) : String :=
  String.mk ((bitsToBytes bits).map (fun b => Char.ofNat b))

/-- The bits of range `r` within a root bit buffer. -/
def extractBits (bits : List Bool) (r : DRange) : List Bool :=
  (bits.drop r.Start.toNat).take r.Len.toNat

/-! ## The value bridge (interp decodevalue.go) -/

/-- Go `strings.HasPrefix name "_"`: the name's first character is an
underscore. -/
def isUnderscoreKey (s : String) : Bool :=
  match s.data with
  | c :: _ => c == '_'
  | [] => false

/-- Modelled from the spec (section 4.3.2): `gojqextra.ToGoJQValue`
converts a raw scalar value losslessly to a plain query value — booleans,
integers, floats (kept as uninterpreted patterns), strings, nested plain
mappings and sequences, and null; raw bit-slices and byte sequences are
not plain values and fail to convert. -/
def Actual.toGoJQ : Actual → Option GoV
  | .bitBuf _ => none
  | .boolA b => some (.boolV b)
  | .intA n => some (.intV n)
  | .int64A n => some (.intV n)
  | .uint64A n => some (.intV n)
  | .float64A p => some (.floatV p)
  | .strA s => some (.strV s)
  | .bytesA _ => none
  | .arrA vs => some (.arrV vs)
  | .mapA fs => some (.objV fs)
  | .nilA => some .nullV

/-- `makeDecodeValue`: wraps a decoded node for the query engine.  An array
Compound becomes an `ArrayDecodeValue`, a struct Compound a
`StructDecodeValue`; a Scalar is wrapped as a `decodeValue` according to
the dynamic type of its raw value (the `Value()` accessor of
`decode.Scalar` is not part of the fragment; per the spec, section 4.3.2,
the converted value is the scalar's actual value).  A `*bitio.Buffer`
scalar wraps the buffer's string with `bitsFormat` set; a `[]byte` scalar
becomes a byte-range handle over a fresh buffer at 8-bit unit; the
`io.Copy` of the bit-buffer case cannot fail in the model. -/
def makeDecodeValue (loc : Loc) : BridgeValue :=
  match loc.node with
  | .compound _ _ isArray _ _ _ _ _ =>
    if isArray then .arrayV loc else .structV loc
  | .scalar _ _ s =>
    match s.actual with
    | .bitBuf bits => .scalarV (.strV (bitBufString bits)) loc true
    | .boolA b => .scalarV (.boolV b) loc false
    | .intA n => .scalarV (.intV n) loc false
    | .int64A n => .scalarV (.intV n) loc false
    | .uint64A n => .scalarV (.intV n) loc false
    | .float64A p => .scalarV (.floatV p) loc false
    | .strA str => .scalarV (.strV str) loc false
    | .bytesA bs => .bufRangeV (bytesToBits bs) 8
    | .arrA vs => .scalarV (.arrV vs) loc false
    | .mapA fs => .scalarV (.objV fs) loc false
    | .nilA => .scalarV .nullV loc false

/-- `decodeValueBase.JQValueKey`: the reserved extended-key dispatch.  Any
other name falls through to the recoverable `expectedExtkeyError`. -/
def decodeValueBase.JQValueKey (loc : Loc) (name : String) : KeyResult :=
  match name with
  | "_start" => .bigIntR loc.node.range.Start
  | "_stop" => .bigIntR loc.node.range.Stop
  | "_len" => .bigIntR loc.node.range.Len
  | "_name" => .strR loc.node.name
  | "_root" => .valR (makeDecodeValue loc.rootLoc)
  | "_buffer_root" => .valR (makeDecodeValue loc.bufferRootLoc)
  | "_format_root" => .valR (makeDecodeValue loc.formatRootLoc)
  | "_parent" =>
    match loc.parentLoc with
    | none => .nullR
    | some p => .valR (makeDecodeValue p)
  | "_actual" =>
    match loc.node with
    | .scalar _ _ s =>
      match s.actual.toGoJQ with
      | some jv => .goR jv
      | none => .errR (.convError "actual")
    | _ => .nullR
  | "_sym" =>
    match loc.node with
    | .scalar _ _ s =>
      match s.sym.toGoJQ with
      | some jv => .goR jv
      | none => .errR (.convError "sym")
    | _ => .nullR
  | "_description" =>
    match loc.node with
    | .compound _ _ _ d _ _ _ _ => if d == "" then .nullR else .strR d
    | .scalar _ _ s => if s.description == "" then .nullR else .strR s.description
  | "_path" => .pathR loc.segs
  | "_error" =>
    match loc.node with
    | .compound _ _ _ _ e _ _ _ =>
      match e with
      | some ev => .goR ev
      | none => .nullR
    | _ => .nullR
  | "_bits" => .bufR loc.node.range 1
  | "_bytes" => .bufR loc.node.range 8
  | "_format" =>
    match loc.node with
    | .compound _ _ _ _ _ f _ _ =>
      match f with
      | some fname => .strR fname
      | none => .nullR
    | .scalar _ _ s =>
      match s.actual with
      | .mapA _ => .strR "json"
      | .arrA _ => .strR "json"
      | _ => .nullR
  | "_unknown" =>
    match loc.node with
    | .scalar _ _ s => .boolR s.unknown
    | _ => .boolR false
  | _ => .errR (.expectedExtkey name)

/-- `valueKey`: underscore-prefixed names go to the extended-key lookup,
everything else to the wrapped value's own lookup. -/
def valueKey (name : String) (a b : String → KeyResult) : KeyResult :=
  if isUnderscoreKey name then a name else b name

def KeyResult.isErrV : KeyResult → Bool
  | .errR _ => true
  | _ => false

/-- `valueHas`: an underscore-prefixed string key is reported present
exactly when the extended-key lookup does not produce an error (the error
itself is returned otherwise); all other keys go to the wrapped value's
own membership test. -/
def valueHas (key : GoKey) (a : String → KeyResult) (b : GoKey → KeyResult) :
    KeyResult :=
  match key with
  | .strK s =>
    if isUnderscoreKey s then
      if (a s).isErrV then a s else .boolR true
    else b key
  | _ => b key

/-- Modelled from the spec: key lookup on the wrapped plain gojq value of a
Scalar adapter; only a plain mapping supports string keys, every other
plain value rejects key lookup. -/
def gojqJQValueKey (jq : GoV) (name : String) : KeyResult :=
  match jq with
  | .objV fs =>
    match fs.find? (fun p => p.1 == name) with
    | some p => .goR p.2
    | none => .nullR
  | .arrV _ => .errR (.expectedObject "array")
  | _ => .errR (.expectedObject "scalar")

/-- Modelled from the spec (section 4.3: array key lookup is via extended
keys only): `gojqextra.Base` with a type tag rejects plain key lookup. -/
def gojqBaseJQValueKey (typ : String) (_name : String) : KeyResult :=
  .errR (.expectedObject typ)

/-- `decodeValue.JQValueKey` (Scalar adapter). -/
def decodeValue.JQValueKey (jq : GoV) (loc : Loc) (name : String) : KeyResult :=
  valueKey name (decodeValueBase.JQValueKey loc) (gojqJQValueKey jq)

/-- Top-level query options as far as the bridge consumes them: the
configured bit-format rendering function. -/
structure Options where
  bitsFormatFn : List Bool → GoV

/-- `decodeValue.JQValueToGoJQEx`: a plain scalar yields its wrapped plain
value; a raw bit-slice scalar (`bitsFormat` set) is rendered by the
configured bit-format function applied to the node's buffer view — the
bits of the node's inner range within the root bit buffer (`InnerRange` is
not part of the fragment; modelled from the spec, section 4.2, where it
coincides with `range`). -/
def decodeValue.JQValueToGoJQEx (jq : GoV) (loc : Loc) (bitsFormat : Bool)
    (opts : Options) : GoV :=
  if !bitsFormat then jq
  else opts.bitsFormatFn (extractBits loc.rootBits loc.node.range)

/-- `StructDecodeValue.JQValueKey`: underscore-prefixed names go to the
extended-key lookup; otherwise the first child with the given name is
wrapped, and a missing name yields null. -/
def StructDecodeValue.JQValueKey (loc : Loc) (name : String) : KeyResult :=
  if isUnderscoreKey name then decodeValueBase.JQValueKey loc name
  else
    match loc.node.children.find? (fun f => f.name == name) with
    | some f => .valR (makeDecodeValue (loc.child f (.nameSeg f.name)))
    | none => .nullR

/-- `StructDecodeValue.JQValueKeys`: the children's names in order. -/
def StructDecodeValue.JQValueKeys (loc : Loc) : List GoV :=
  loc.node.children.map (fun f => .strV f.name)

/-- `StructDecodeValue.JQValueHas`. -/
def StructDecodeValue.JQValueHas (loc : Loc) (key : GoKey) : KeyResult :=
  valueHas key (decodeValueBase.JQValueKey loc)
    (fun k =>
      match k with
      | .strK s => .boolR (loc.node.children.any (fun f => f.name == s))
      | _ => .errR (.hasKeyType "object" k.goString))

/-- `StructDecodeValue.JQValueUpdate`: the method body only constructs the
`notUpdateable` error; the receiver (and with it the decoded tree) is
returned untouched. -/
def StructDecodeValue.JQValueUpdate (v : Loc) (key : GoKey) (_u : GoV)
    (_delpath : Bool) : KeyResult × Loc :=
  (.errR (.notUpdateable "object" key.goString), v)

/-- `ArrayDecodeValue.JQValueKey`. -/
def ArrayDecodeValue.JQValueKey (loc : Loc) (name : String) : KeyResult :=
  valueKey name (decodeValueBase.JQValueKey loc) (gojqBaseJQValueKey "array")

/-- `ArrayDecodeValue.JQValueIndex`: a negative index yields null (absent);
otherwise the child slice is indexed directly — an index at or past the
child count has no guard in the source and faults, modelled as `none`. -/
def ArrayDecodeValue.JQValueIndex (loc : Loc) (index : Int) : Option KeyResult :=
  if index < 0 then some .nullR
  else
    match loc.node.children.get? index.toNat with
    | some c => some (.valR (makeDecodeValue (loc.child c (.idxSeg index.toNat))))
    | none => none

/-- `ArrayDecodeValue.JQValueSlice`: the child slice is re-sliced directly
and each element wrapped; bounds outside `0 ≤ start ≤ stop ≤ length` have
no guard in the source and fault, modelled as `none`. -/
def ArrayDecodeValue.JQValueSlice (loc : Loc) (start stop : Int) :
    Option (List BridgeValue) :=
  if 0 ≤ start ∧ start ≤ stop ∧ stop ≤ (loc.node.children.length : Int) then
    some ((((loc.node.children.drop start.toNat).take (stop - start).toNat).enum).map
      (fun p => makeDecodeValue (loc.child p.2 (.idxSeg (start.toNat + p.1)))))
  else none

/-- `ArrayDecodeValue.JQValueHas`. -/
def ArrayDecodeValue.JQValueHas (loc : Loc) (key : GoKey) : KeyResult :=
  valueHas key (decodeValueBase.JQValueKey loc)
    (fun k =>
      match k with
      | .intK n => .boolR (decide (0 ≤ n ∧ n < (loc.node.children.length : Int)))
      | _ => .errR (.hasKeyType "array" k.goString))

/-- `ArrayDecodeValue.JQValueUpdate`: as for structs, only the error is
constructed and the receiver is returned untouched. -/
def ArrayDecodeValue.JQValueUpdate (v : Loc) (key : GoKey) (_u : GoV)
    (_delpath : Bool) : KeyResult × Loc :=
  (.errR (.notUpdateable "array" key.goString), v)

/-! ## The query-bridge decode entry point (Interp._decode) -/

/-- The caller-supplied options of `_decode`, as extracted by
`mapstructure`: `filename`, `force`, the `_progress` expression, and the
remaining entries, which are passed through as format-specific options. -/
structure DecodeArgOpts where
  filename : String
  force : Bool
  progress : String
  remain : List (String × GoV)

/-- Modelled from the spec (section 4.4): the options record the driver
`decode.Decode` receives. -/
structure DecodeOptions where
  IsRoot : Bool
  FillGaps : Bool
  Force : Bool
  Range : DRange
  Description : String
  FormatOptions : List (String × GoV)

/-- `Interp._decode` as far as it constructs the driver options: when the
input is an open file its filename overrides the caller-supplied one (the
progress hack), and the driver is invoked with `IsRoot` and `FillGaps`
hard-wired to true; only `force`, the filename, and the remaining
format-specific options flow in from the caller. -/
def Interp._decode (openFileName : Option String) (opts : DecodeArgOpts)
    (bvRange : DRange) : DecodeOptions :=
  let opts' :=
    match openFileName with
    | some fn => { opts with filename := fn }
    | none => opts
  { IsRoot := true
    FillGaps := true
    Force := opts'.force
    Range := bvRange
    Description := opts'.filename
    FormatOptions := opts'.remain }

/-! ## The AVC access-unit format plugin (format/mpeg/avc_au.go) -/

/-- Modelled from the spec (section 4.1.1): `d.FieldU(name, w)` reads a
`w`-bit big-endian unsigned integer at the current bit position; reading
past the end of the input is a fatal decode error. -/
def readU (bytes : List Nat) (pos w : Nat) : Option Nat :=
  if pos + w ≤ 8 * bytes.length then
    some (bitsToNat (((bytesToBits bytes).drop pos).take w))
  else none

/-- A node of the tree the access-unit plugin builds: the `length` scalar,
the length-scoped `nalu` sub-decode (tried against the resolved candidate
format group, recorded by name), the `nalu` struct frame, and the implicit
root array. -/
inductive AvcNode where
  | scalarN (name : String) (range : DRange) (value : Nat)
  | subFormat (name : String) (range : DRange) (formats : List String)
  | structN (name : String) (range : DRange) (children : List AvcNode)
  | arrayN (name : String) (range : DRange) (children : List AvcNode)
deriving Repr

/-- The `in` argument of `avcAUDecode` — either a `format.AvcIn` carrying
`LengthSize`, or any other value. -/
inductive AvcInArg where
  | avcIn (lengthSize : Nat)
  | otherIn

/-- The decode loop of `avcAUDecode`: while not at end of input, a struct
`nalu` is appended holding an unsigned scalar `length` of
`LengthSize*8` bits followed by a length-scoped `length*8`-bit sub-decode
`nalu` against the `avc_nalu` candidate formats.  Framing, `NotEnd` and
`FieldFormatLen` window placement are modelled from the spec (sections
4.1.2 and 4.1.3); fuel bounds the iteration count, one unit per loop
entry. -/
def avcAULoop (lengthSize : Nat) (bytes : List Nat) :
    Nat → Nat → Except String (List AvcNode × Nat)
  | 0, _ => .error "out of fuel"
  | fuel + 1, pos =>
    if pos < 8 * bytes.length then
      match readU bytes pos (lengthSize * 8) with
      | none => .error "read past end"
      | some l =>
        let p := pos + lengthSize * 8
        if p + l * 8 ≤ 8 * bytes.length then
          match avcAULoop lengthSize bytes fuel (p + l * 8) with
          | .ok (rest, stopPos) =>
            .ok (AvcNode.structN "nalu" ⟨pos, lengthSize * 8 + l * 8⟩
              [AvcNode.scalarN "length" ⟨pos, lengthSize * 8⟩ l,
               AvcNode.subFormat "nalu" ⟨p, l * 8⟩ ["avc_nalu"]] :: rest,
              stopPos)
          | .error e => .error e
        else .error "read past end of scope"
    else .ok ([], pos)

/-- `avcAUDecode`: a non-`AvcIn` argument is fatal with "avcIn required";
otherwise the loop runs inside the implicit root array `access_unit`
(`RootArray`/`RootName` of the registered format, spec section 6.1) until
end of input. -/
def avcAUDecode (arg : AvcInArg) (bytes : List Nat) : Except String AvcNode :=
  match arg with
  | .otherIn => .error "avcIn required"
  | .avcIn lengthSize =>
    match avcAULoop lengthSize bytes (bytes.length + 1) 0 with
    | .ok (children, _) =>
      .ok (.arrayN "access_unit" ⟨0, 8 * bytes.length⟩ children)
    | .error e => .error e

/-! ## Concrete inputs used by the end-to-end scenario and the witnesses -/

/-- The scenario S1 input buffer:
00 00 00 05 AA BB CC DD EE 00 00 00 02 FF 01. -/
def s1Input : List Nat :=
  [0x00, 0x00, 0x00, 0x05, 0xAA, 0xBB, 0xCC, 0xDD, 0xEE,
   0x00, 0x00, 0x00, 0x02, 0xFF, 0x01]

/-- A sample decoded scalar leaf named `a`. -/
def sampleScalar : DecVal :=
  .scalar "a" ⟨0, 8⟩ ⟨.uint64A 1, .nilA, "", false⟩

/-- A sample decoded struct with the single child `a`, as a root value. -/
def sampleStructLoc : Loc :=
  ⟨.compound "root" ⟨0, 8⟩ false "" none none false [sampleScalar],
   [], [], bytesToBits [0x01]⟩

/-- A sample decoded array with one element, as a root value. -/
def sampleArrayLoc : Loc :=
  ⟨.compound "root" ⟨0, 8⟩ true "" none none false [sampleScalar],
   [], [], bytesToBits [0x01]⟩

/-- The complete set of reserved extended keys of the spec, section 4.3.1. -/
def extKeyTable : List String :=
  ["_start", "_stop", "_len", "_name", "_root", "_buffer_root",
   "_format_root", "_parent", "_actual", "_sym", "_description", "_path",
   "_bits", "_bytes", "_error", "_format", "_unknown"]

/-! ## Theorems -/

/-- Claim C1: decoding `avc_au` produces a root array `access_unit` that,
while not at end of input, appends one struct child `nalu` holding an
unsigned scalar `length` of `LengthSize*8` bits followed by a
length-scoped `length*8`-bit sub-decode `nalu` against the `avc_nalu`
candidate formats; on the 15-byte S1 input with `length_size = 4` the tree
is an array of exactly 2 such structs with ranges [0,32)/[32,72) and
[72,104)/[104,120). -/
theorem avc_au_s1_tree :
    avcAUDecode (.avcIn 4) s1Input =
      .ok (.arrayN "access_unit" ⟨0, 120⟩
        [.structN "nalu" ⟨0, 72⟩
          [.scalarN "length" ⟨0, 32⟩ 5,
           .subFormat "nalu" ⟨32, 40⟩ ["avc_nalu"]],
         .structN "nalu" ⟨72, 48⟩
          [.scalarN "length" ⟨72, 32⟩ 2,
           .subFormat "nalu" ⟨104, 16⟩ ["avc_nalu"]]]) := by rfl

/-- Claim C2, counterexample: on a struct with single child `a`, the key
`_start` is reported present by `has` although it is not among `keys`, so
`has(k) ⇔ k ∈ keys(C)` fails as stated for underscore-prefixed keys. -/
theorem struct_has_extkey_counterexample :
    StructDecodeValue.JQValueHas sampleStructLoc (.strK "_start") = .boolR true ∧
    GoV.strV "_start" ∉ StructDecodeValue.JQValueKeys sampleStructLoc := by
  refine ⟨rfl, ?_⟩
  intro h
  simp [StructDecodeValue.JQValueKeys, sampleStructLoc, sampleScalar,
    DecVal.children, DecVal.name] at h

/-- Claim C2, amended: for every struct Compound decode value and every
string key `k` that does not begin with an underscore, `has(k)` returns
true exactly when `k` is an element of `keys(C)`, the list of child
names. -/
theorem struct_has_amended (loc : Loc) (k : String)
    (h : isUnderscoreKey k = false) :
    (StructDecodeValue.JQValueHas loc (.strK k) = .boolR true ↔
      GoV.strV k ∈ StructDecodeValue.JQValueKeys loc) := by
  simp only [StructDecodeValue.JQValueHas, valueHas, h, Bool.false_eq_true,
    if_false, StructDecodeValue.JQValueKeys, List.mem_map,
    KeyResult.boolR.injEq, List.any_eq_true, beq_iff_eq, GoV.strV.injEq]

/-- Claim C2, witness for the amended theorem at the concrete struct and
the non-underscore key `a`. -/
theorem struct_has_amended_witness :
    isUnderscoreKey "a" = false ∧
    (StructDecodeValue.JQValueHas sampleStructLoc (.strK "a") = .boolR true ↔
      GoV.strV "a" ∈ StructDecodeValue.JQValueKeys sampleStructLoc) :=
  ⟨rfl, struct_has_amended sampleStructLoc "a" rfl⟩

/-- Claim C3: for every decoded value — struct, array or scalar — and
every underscore-prefixed key name outside the reserved extended-key
table, key lookup returns the recoverable `expectedExtkey` error rather
than a child or an absent value. -/
theorem extkey_default (loc : Loc) (jq : GoV) (name : String)
    (h1 : isUnderscoreKey name = true) (h2 : name ∉ extKeyTable) :
    decodeValueBase.JQValueKey loc name = .errR (.expectedExtkey name) ∧
    StructDecodeValue.JQValueKey loc name = .errR (.expectedExtkey name) ∧
    ArrayDecodeValue.JQValueKey loc name = .errR (.expectedExtkey name) ∧
    decodeValue.JQValueKey jq loc name = .errR (.expectedExtkey name) := by
  have hbase : decodeValueBase.JQValueKey loc name =
      .errR (.expectedExtkey name) := by
    simp only [extKeyTable, List.mem_cons, List.mem_singleton, not_or] at h2
    unfold decodeValueBase.JQValueKey
    split <;> simp_all
  refine ⟨hbase, ?_, ?_, ?_⟩ <;>
    simp [StructDecodeValue.JQValueKey, ArrayDecodeValue.JQValueKey,
      decodeValue.JQValueKey, valueKey, h1, hbase]

/-- Claim C3, witness at the unreserved key `_zzz` on the concrete
struct. -/
theorem extkey_default_witness :
    isUnderscoreKey "_zzz" = true ∧ "_zzz" ∉ extKeyTable ∧
    (decodeValueBase.JQValueKey sampleStructLoc "_zzz" =
        .errR (.expectedExtkey "_zzz") ∧
      StructDecodeValue.JQValueKey sampleStructLoc "_zzz" =
        .errR (.expectedExtkey "_zzz") ∧
      ArrayDecodeValue.JQValueKey sampleStructLoc "_zzz" =
        .errR (.expectedExtkey "_zzz") ∧
      decodeValue.JQValueKey GoV.nullV sampleStructLoc "_zzz" =
        .errR (.expectedExtkey "_zzz")) :=
  ⟨rfl, by decide, extkey_default sampleStructLoc GoV.nullV "_zzz" rfl (by decide)⟩

/-- Claim C4: for every decoded Compound value, key, update value and
delete-path flag, the bridge update returns the `notUpdateable` error —
tagged `object` for a struct and `array` for an array — and returns the
receiver unchanged, so the decoded tree is unaffected by the attempt. -/
theorem update_rejected (loc : Loc) (key : GoKey) (u : GoV) (delpath : Bool) :
    StructDecodeValue.JQValueUpdate loc key u delpath =
      (.errR (.notUpdateable "object" key.goString), loc) ∧
    ArrayDecodeValue.JQValueUpdate loc key u delpath =
      (.errR (.notUpdateable "array" key.goString), loc) :=
  ⟨rfl, rfl⟩

/-- Claim C5: on every decoded node the extended keys `_start`, `_stop`
and `_len` return arbitrary-precision integers equal to `range.start`,
`range.start + range.length` and `range.length`, and the identity
`_start + _len == _stop` holds. -/
theorem extkey_positions (loc : Loc) :
    decodeValueBase.JQValueKey loc "_start" = .bigIntR loc.node.range.Start ∧
    decodeValueBase.JQValueKey loc "_stop" =
      .bigIntR (loc.node.range.Start + loc.node.range.Len) ∧
    decodeValueBase.JQValueKey loc "_len" = .bigIntR loc.node.range.Len ∧
    loc.node.range.Start + loc.node.range.Len = loc.node.range.Stop :=
  ⟨rfl, rfl, rfl, rfl⟩

/-- Claim C6: on every decoded node the extended key `_format` returns,
for a Compound, the producing format's name (absent when the format
back-reference is null) and, for a Scalar, the string `json` exactly when
the actual value is a plain mapping or sequence, and absent otherwise. -/
theorem extkey_format (loc : Loc) :
    decodeValueBase.JQValueKey loc "_format" =
      (match loc.node with
       | .compound _ _ _ _ _ f _ _ =>
         match f with
         | some fname => .strR fname
         | none => .nullR
       | .scalar _ _ s =>
         match s.actual with
         | .mapA _ => .strR "json"
         | .arrA _ => .strR "json"
         | _ => .nullR) := by
  rcases loc with ⟨node, ps, segs, bits⟩
  cases node with
  | compound n r ia d e f b cs => cases f <;> rfl
  | scalar n r s =>
    rcases s with ⟨a, sy, ds, u⟩
    cases a <;> rfl

/-- Claim C7: a Scalar whose actual value is a raw bit-slice is wrapped
with the `bitsFormat` flag set and converts to a plain value by applying
the configured bit-format function to the slice's buffer, while a Scalar
whose actual value is a byte sequence is wrapped as a byte-range handle
rather than a string. -/
theorem scalar_bitbuf_bytes (nm : String) (rg : DRange) (sym : Actual)
    (ds : String) (u : Bool) (bits : List Bool) (bs : List Nat)
    (parents : List DecVal) (segs : List PathSeg) (rootBits : List Bool)
    (opts : Options) :
    makeDecodeValue
        ⟨.scalar nm rg ⟨.bitBuf bits, sym, ds, u⟩, parents, segs, rootBits⟩ =
      .scalarV (.strV (bitBufString bits))
        ⟨.scalar nm rg ⟨.bitBuf bits, sym, ds, u⟩, parents, segs, rootBits⟩
        true ∧
    decodeValue.JQValueToGoJQEx (.strV (bitBufString bits))
        ⟨.scalar nm rg ⟨.bitBuf bits, sym, ds, u⟩, parents, segs, rootBits⟩
        true opts =
      opts.bitsFormatFn (extractBits rootBits rg) ∧
    makeDecodeValue
        ⟨.scalar nm rg ⟨.bytesA bs, sym, ds, u⟩, parents, segs, rootBits⟩ =
      .bufRangeV (bytesToBits bs) 8 :=
  ⟨rfl, rfl, rfl⟩

/-- Claim C8: on every array decode value with `n` children, a negative
index returns the absent value, an in-range index and in-range slice
bounds succeed, while an index at or past `n` and slice bounds beyond `n`
access the children slice without an upper-bound guard (modelled as
`none`): index and slice are total only under the precondition that the
index and bounds lie within `[0, n]`. -/
theorem array_index_slice_bounds (loc : Loc) (i j k s e be : Int)
    (hi : i < 0)
    (hj : (loc.node.children.length : Int) ≤ j)
    (hk0 : 0 ≤ k) (hkn : k < (loc.node.children.length : Int))
    (hs : 0 ≤ s) (hse : s ≤ e) (he : e ≤ (loc.node.children.length : Int))
    (hbe : (loc.node.children.length : Int) < be) :
    ArrayDecodeValue.JQValueIndex loc i = some .nullR ∧
    ArrayDecodeValue.JQValueIndex loc j = none ∧
    (ArrayDecodeValue.JQValueIndex loc k).isSome = true ∧
    (ArrayDecodeValue.JQValueSlice loc s e).isSome = true ∧
    ArrayDecodeValue.JQValueSlice loc 0 be = none := by
  refine ⟨?_, ?_, ?_, ?_, ?_⟩
  · unfold ArrayDecodeValue.JQValueIndex
    rw [if_pos hi]
  · have hj0 : ¬ j < 0 := by omega
    have hnone : loc.node.children.get? j.toNat = none :=
      List.get?_eq_none.mpr (by omega)
    unfold ArrayDecodeValue.JQValueIndex
    rw [if_neg hj0, hnone]
  · have hk' : ¬ k < 0 := by omega
    have hlt : k.toNat < loc.node.children.length := by omega
    unfold ArrayDecodeValue.JQValueIndex
    rw [if_neg hk', List.get?_eq_get hlt]
    rfl
  · unfold ArrayDecodeValue.JQValueSlice
    rw [if_pos ⟨hs, hse, he⟩]
    rfl
  · unfold ArrayDecodeValue.JQValueSlice
    split
    · rename_i hcond
      exact absurd hcond.2.2 (not_le.mpr hbe)
    · rfl

/-- Claim C8, witness on the concrete one-element array with index -1
(absent), index 3 (out of bounds), index 0 and slice [0,1) (defined), and
slice [0,2) (out of bounds). -/
theorem array_index_slice_bounds_witness :
    ArrayDecodeValue.JQValueIndex sampleArrayLoc (-1) = some .nullR ∧
    ArrayDecodeValue.JQValueIndex sampleArrayLoc 3 = none ∧
    (ArrayDecodeValue.JQValueIndex sampleArrayLoc 0).isSome = true ∧
    (ArrayDecodeValue.JQValueSlice sampleArrayLoc 0 1).isSome = true ∧
    ArrayDecodeValue.JQValueSlice sampleArrayLoc 0 2 = none :=
  array_index_slice_bounds sampleArrayLoc (-1) 3 0 0 1 2
    (by decide) (by decide) (by decide) (by decide)
    (by decide) (by decide) (by decide) (by decide)

/-- Claim C9: the query-bridge decode entry point always runs the decoder
with `FillGaps` and `IsRoot` hard-wired to true, whatever the caller
supplied; only `force`, the filename and the remaining format-specific
options are caller-controlled, so gap-filling cannot be disabled through
this entry point. -/
theorem decode_gapfill_root_forced (ofn : Option String)
    (opts : DecodeArgOpts) (r : DRange) :
    (Interp._decode ofn opts r).FillGaps = true ∧
    (Interp._decode ofn opts r).IsRoot = true ∧
    (Interp._decode ofn opts r).Force = opts.force ∧
    (Interp._decode ofn opts r).FormatOptions = opts.remain ∧
    (Interp._decode ofn opts r).Range = r := by
  cases ofn <;> exact ⟨rfl, rfl, rfl, rfl, rfl⟩

/-- Claim C10: for every input argument that is not a `format.AvcIn`
value, `avcAUDecode` fails fatally with message `avcIn required` on any
byte input whatsoever, before reading any field; a successful `avc_au`
decode therefore presupposes an `AvcIn` argument supplying
`LengthSize`. -/
theorem avc_au_requires_avcin (bytes : List Nat) :
    avcAUDecode .otherIn bytes = .error "avcIn required" := rfl
